import Mathlib

/-!
Verification of the request-signing and webhook-verification core of the
cryptome-pay-go client library (`client.go`).

The embedding models:

* `generateSignature` — canonical-string construction (filter out the
  reserved `signature` key and empty values, sort keys ascending, join as
  `k=v` pairs with `&`) followed by HMAC-SHA256 keyed by the client secret,
  hex-encoded lowercase.
* `VerifyWebhookSignature` / `VerifyWebhookSignatureFromMap` — recompute the
  expected signature and compare with `subtle.ConstantTimeCompare`.

Go `map[string]string` values are modelled as association lists
(`List (String × String)`); where a claim depends on map semantics the
theorems carry a `Nodup` hypothesis on the key list.  Go strings are
sequences of bytes; Lean strings are sequences of code points, bridged by
UTF-8 encoding (`strBytes`).  Go `float64` amounts are modelled as exact
rationals with fixed-point decimal rendering.  The Go standard library
pieces (`crypto/sha256`, `crypto/hmac`, `encoding/hex`,
`crypto/subtle.ConstantTimeCompare`) are modelled concretely from their
published specifications (FIPS 180-4, RFC 2104).
-/

namespace CryptomePay

/-- UTF-8 encoding of a single code point, as the Go runtime produces when
converting a `string` to `[]byte`.  Lean `Char` excludes surrogates, so the
four standard ranges cover every character. -/
def utf8Bytes (c : Char) : List Nat :=
  if c.toNat < 128 then [c.toNat]
  else if c.toNat < 2048 then
    [192 + c.toNat / 64, 128 + c.toNat % 64]
  else if c.toNat < 65536 then
    [224 + c.toNat / 4096, 128 + (c.toNat / 64) % 64, 128 + c.toNat % 64]
  else
    [240 + c.toNat / 262144, 128 + (c.toNat / 4096) % 64,
     128 + (c.toNat / 64) % 64, 128 + c.toNat % 64]

/-- UTF-8 bytes of a character list. -/
def charListBytes (l : List Char) : List Nat :=
  l.foldr (fun c acc => utf8Bytes c ++ acc) []

/-- The bytes of a string, as Go's `[]byte(s)` conversion yields. -/
def strBytes (s : String) : List Nat :=
  charListBytes s.data

/-- Big-endian byte expansion: the `n` low-order bytes of `x`, most
significant first. -/
def beBytes : Nat → Nat → List Nat
  | 0, _ => []
  | n + 1, x => (x / 256 ^ n) % 256 :: beBytes n x

/-- Right rotation of a 32-bit word. -/
def rotr (n x : Nat) : Nat :=
  ((x >>> n) ||| (x <<< (32 - n))) % 4294967296

/-- SHA-256 round constants (FIPS 180-4 §4.2.2), as used by Go's
`crypto/sha256`. -/
def sha256K : List Nat :=
  [1116352408, 1899447441, 3049323471, 3921009573, 961987163,
   1508970993, 2453635748, 2870763221, 3624381080, 310598401,
   607225278, 1426881987, 1925078388, 2162078206, 2614888103,
   3248222580, 3835390401, 4022224774, 264347078, 604807628,
   770255983, 1249150122, 1555081692, 1996064986, 2554220882,
   2821834349, 2952996808, 3210313671, 3336571891, 3584528711,
   113926993, 338241895, 666307205, 773529912, 1294757372,
   1396182291, 1695183700, 1986661051, 2177026350, 2456956037,
   2730485921, 2820302411, 3259730800, 3345764771, 3516065817,
   3600352804, 4094571909, 275423344, 430227734, 506948616,
   659060556, 883997877, 958139571, 1322822218, 1537002063,
   1747873779, 1955562222, 2024104815, 2227730452, 2361852424,
   2428436474, 2756734187, 3204031479, 3329325298]

/-- Working state of the SHA-256 compression function: the eight 32-bit
words `a` through `h`. -/
structure Sha256State where
  a : Nat
  b : Nat
  c : Nat
  d : Nat
  e : Nat
  f : Nat
  g : Nat
  h : Nat

/-- Initial hash value (FIPS 180-4 §5.3.3). -/
def sha256H0 : Sha256State :=
  ⟨1779033703, 3144134277, 1013904242, 2773480762,
   1359893119, 2600822924, 528734635, 1541459225⟩

/-- One round of the SHA-256 compression function, consuming a round
constant paired with a message-schedule word. -/
def sha256Round (s : Sha256State) (kw : Nat × Nat) : Sha256State :=
  let s1 := rotr 6 s.e ^^^ rotr 11 s.e ^^^ rotr 25 s.e
  let ch := (s.e &&& s.f) ^^^ ((s.e ^^^ 4294967295) &&& s.g)
  let t1 := (s.h + s1 + ch + kw.1 + kw.2) % 4294967296
  let s0 := rotr 2 s.a ^^^ rotr 13 s.a ^^^ rotr 22 s.a
  let mj := (s.a &&& s.b) ^^^ (s.a &&& s.c) ^^^ (s.b &&& s.c)
  let t2 := (s0 + mj) % 4294967296
  ⟨(t1 + t2) % 4294967296, s.a, s.b, s.c, (s.d + t1) % 4294967296, s.e, s.f, s.g⟩

/-- Extend the 16-word block to the 64-word message schedule: each step
appends `σ1(w[t-2]) + w[t-7] + σ0(w[t-15]) + w[t-16]` reduced mod 2^32. -/
def extendW : List Nat → Nat → List Nat
  | w, 0 => w
  | w, n + 1 =>
    let l := w.length
    let wm2 := w.getD (l - 2) 0
    let wm7 := w.getD (l - 7) 0
    let wm15 := w.getD (l - 15) 0
    let wm16 := w.getD (l - 16) 0
    let sg0 := rotr 7 wm15 ^^^ rotr 18 wm15 ^^^ (wm15 >>> 3)
    let sg1 := rotr 17 wm2 ^^^ rotr 19 wm2 ^^^ (wm2 >>> 10)
    extendW (w ++ [(wm16 + sg0 + wm7 + sg1) % 4294967296]) n

/-- Process one 512-bit block: run the 64 rounds over the schedule and add
the result into the chaining state, word-wise mod 2^32. -/
def processBlock (hs : Sha256State) (block : List Nat) : Sha256State :=
  let w := extendW block 48
  let s := (sha256K.zip w).foldl sha256Round hs
  ⟨(hs.a + s.a) % 4294967296, (hs.b + s.b) % 4294967296,
   (hs.c + s.c) % 4294967296, (hs.d + s.d) % 4294967296,
   (hs.e + s.e) % 4294967296, (hs.f + s.f) % 4294967296,
   (hs.g + s.g) % 4294967296, (hs.h + s.h) % 4294967296⟩

/-- SHA-256 padding: append `0x80`, zero bytes up to 56 mod 64, then the
bit length as 8 big-endian bytes. -/
def padMessage (msg : List Nat) : List Nat :=
  let l := msg.length
  let zeros := (55 + 64 - l % 64) % 64
  msg ++ 128 :: List.replicate zeros 0 ++ beBytes 8 (l * 8)

/-- Split a byte list into `n` chunks of 64 bytes. -/
def toBlocks : Nat → List Nat → List (List Nat)
  | 0, _ => []
  | n + 1, l => l.take 64 :: toBlocks n (l.drop 64)

/-- Group a byte list into `n` big-endian 32-bit words. -/
def bytesToWords : Nat → List Nat → List Nat
  | 0, _ => []
  | n + 1, l => (l.take 4).foldl (fun acc b => acc * 256 + b) 0 :: bytesToWords n (l.drop 4)

/-- The 32 digest bytes of a final SHA-256 state, big-endian per word. -/
def digestBytes (s : Sha256State) : List Nat :=
  beBytes 4 s.a ++ beBytes 4 s.b ++ beBytes 4 s.c ++ beBytes 4 s.d ++
  beBytes 4 s.e ++ beBytes 4 s.f ++ beBytes 4 s.g ++ beBytes 4 s.h

/-- SHA-256 of a byte list (FIPS 180-4), the model of Go's
`crypto/sha256.Sum256` as used through `hash.Hash`. -/
def sha256 (msg : List Nat) : List Nat :=
  let padded := padMessage msg
  let blocks := (toBlocks (padded.length / 64) padded).map (bytesToWords 16)
  digestBytes (blocks.foldl processBlock sha256H0)

/-- HMAC-SHA256 (RFC 2104), the model of Go's
`hmac.New(sha256.New, key)` followed by `Write`/`Sum`. -/
def hmacSha256 (key msg : List Nat) : List Nat :=
  let k0 := if key.length > 64 then sha256 key else key
  let kp := k0 ++ List.replicate (64 - k0.length) 0
  sha256 ((kp.map (fun b => b ^^^ 92)) ++ sha256 ((kp.map (fun b => b ^^^ 54)) ++ msg))

/-- The lowercase hex alphabet used by Go's `encoding/hex`. -/
def hexDigitChars : List Char :=
  "0123456789abcdef".data

/-- Hex digit for a value below 16. -/
def hexChar (n : Nat) : Char :=
  hexDigitChars.getD n '0'

/-- Lowercase hex encoding of a byte list, the model of Go's
`hex.EncodeToString`. -/
def hexEncode (bs : List Nat) : String :=
  String.mk (bs.foldr (fun b acc => hexChar (b / 16) :: hexChar (b % 16) :: acc) [])

/-- The signing-relevant part of the Go `Client` struct: the API key and
the shared secret.  The HTTP client and base URL play no role in signing. -/
structure Client where
  apiKey : String
  apiSecret : String

/-- First-match lookup in an association list, the model of indexing a Go
map once the map is represented as its entry list.  With `Nodup` keys the
first match is the only match. -/
def lookupField {α : Type} (k : String) : List (String × α) → Option α
  | [] => none
  | kv :: rest => if kv.1 = k then some kv.2 else lookupField k rest

/-- Lexicographic comparison of character lists by code point.  Because
UTF-8 encoding preserves code-point order byte-wise, this is exactly the
byte-wise `<=` Go's `sort.Strings` sorts by. -/
def charListLe : List Char → List Char → Bool
  | [], _ => true
  | _ :: _, [] => false
  | c :: cs, d :: ds =>
    if c.toNat < d.toNat then true
    else if d.toNat < c.toNat then false
    else charListLe cs ds

/-- Byte-wise string comparison, the order `sort.Strings` uses. -/
def strLeB (s t : String) : Bool :=
  charListLe s.data t.data

/-- The sort order as a proposition, for use with `List.insertionSort`. -/
@[reducible] def strLe (s t : String) : Prop :=
  strLeB s t = true

/-- The key order lifted to parameter pairs, for the spec-side sort. -/
@[reducible] def pairLe (x y : String × String) : Prop :=
  strLeB x.1 y.1 = true

/-- The filter of `generateSignature`: an entry is kept when its key is not
the reserved `signature` key and its value is non-empty
(`if k != "signature" && v != ""` in the source). -/
def keptPair (kv : String × String) : Bool :=
  kv.1 != "signature" && kv.2 != ""

/-- The sorted key list `generateSignature` iterates over: keys of the kept
entries, sorted ascending (`sort.Strings` in the source). -/
def signedKeys (p : List (String × String)) : List String :=
  List.insertionSort strLe ((p.filter keptPair).map Prod.fst)

/-- The canonical string `generateSignature` feeds to HMAC: the kept keys in
sorted order, each rendered `k=v` with the value looked up verbatim, joined
by `&` with no trailing separator. -/
def canonicalString (p : List (String × String)) : String :=
  String.intercalate "&"
    ((signedKeys p).map (fun k => k ++ "=" ++ (lookupField k p).getD ""))

/-- Model of `(*Client).generateSignature`: lowercase-hex HMAC-SHA256 of the
canonical string, keyed by the client secret. -/
def generateSignature (c : Client) (p : List (String × String)) : String :=
  hexEncode (hmacSha256 (strBytes c.apiSecret) (strBytes (canonicalString p)))

/-- The canonicalization as the spec words it, for the refinement claim:
discard entries whose key is `signature` or whose value is empty, sort the
remaining *pairs* by key ascending, and join them as `key=value` with `&`.
This is compared against `canonicalString`, which is read off the source. -/
def specCanonicalize (p : List (String × String)) : String :=
  String.intercalate "&"
    ((List.insertionSort pairLe (p.filter keptPair)).map
      (fun kv => kv.1 ++ "=" ++ kv.2))

/-- Functional model of Go's `subtle.ConstantTimeCompare`: `1` when the two
byte slices have equal length and contents (accumulating the OR of the
byte-wise XORs), `0` otherwise. -/
def constantTimeCompare (x y : List Nat) : Nat :=
  if x.length ≠ y.length then 0
  else if (x.zip y).foldl (fun v ab => v ||| (ab.1 ^^^ ab.2)) 0 = 0 then 1 else 0

/-- Left-pad a digit string with zeros to width `d`. -/
def padZeros (s : String) (d : Nat) : String :=
  String.mk (List.replicate (d - s.length) '0') ++ s

/-- Render the scaled value `n` (an integer count of `10^-d` units) with
exactly `d` digits after the decimal point. -/
def renderFixedNat (n d : Nat) : String :=
  toString (n / 10 ^ d) ++ "." ++ padZeros (toString (n % 10 ^ d)) d

/-- Fixed-point rendering of a rational with `d` decimal digits, rounding to
the nearest representable value (`⌊q * 10^d + 1/2⌋`, computed on the
numerator and denominator with flooring integer division).  Models Go's
`fmt.Sprintf` with a fixed precision applied to a `float64`, with the float
value taken exactly. -/
def renderFixed (q : ℚ) (d : Nat) : String :=
  let scaled : Int := Int.fdiv (2 * q.num * 10 ^ d + q.den) (2 * q.den)
  if scaled < 0 then "-" ++ renderFixedNat scaled.natAbs d
  else renderFixedNat scaled.toNat d

/-- Model of `formatAmount`: `fmt.Sprintf` with two decimal digits. -/
def formatAmount (q : ℚ) : String :=
  renderFixed q 2

/-- Model of `formatActualAmount`: `fmt.Sprintf` with four decimal digits. -/
def formatActualAmount (q : ℚ) : String :=
  renderFixed q 4

/-- The Go `WebhookPayload` struct.  The two `float64` amounts are carried
as exact rationals. -/
structure WebhookPayload where
  trade_id : String
  order_id : String
  amount : ℚ
  actual_amount : ℚ
  token : String
  chain_type : String
  block_transaction_id : String
  status : Int
  signature : String

/-- The parameter map `VerifyWebhookSignature` builds from a payload: every
field except `signature`, with the amounts fixed-point formatted and the
status rendered in decimal. -/
def webhookParams (p : WebhookPayload) : List (String × String) :=
  [("trade_id", p.trade_id),
   ("order_id", p.order_id),
   ("amount", formatAmount p.amount),
   ("actual_amount", formatActualAmount p.actual_amount),
   ("token", p.token),
   ("chain_type", p.chain_type),
   ("block_transaction_id", p.block_transaction_id),
   ("status", toString p.status)]

/-- Model of `(*Client).VerifyWebhookSignature`: recompute the signature
over the payload fields and compare with `subtle.ConstantTimeCompare`. -/
def VerifyWebhookSignature (c : Client) (p : WebhookPayload) : Bool :=
  constantTimeCompare (strBytes (generateSignature c (webhookParams p)))
    (strBytes p.signature) == 1

/-- Values a decoded `map[string]interface{}` entry can hold, covering the
JSON-decodable scalars the untyped webhook path receives. -/
inductive GoValue where
  | str (s : String)
  | int (n : Int)
  | bool (b : Bool)
  | null
deriving DecidableEq

/-- Generic stringification of an untyped value, the model of
`fmt.Sprintf` with the default verb on an `interface{}`. -/
def govFormat : GoValue → String
  | GoValue.str s => s
  | GoValue.int n => toString n
  | GoValue.bool b => if b then "true" else "false"
  | GoValue.null => "<nil>"

/-- The string parameters `VerifyWebhookSignatureFromMap` builds: every
non-`signature` entry, generically stringified. -/
def mapParams (payload : List (String × GoValue)) : List (String × String) :=
  (payload.filter (fun kv => kv.1 != "signature")).map
    (fun kv => (kv.1, govFormat kv.2))

/-- Model of `(*Client).VerifyWebhookSignatureFromMap`: extract the
`signature` field (returning `false` when it is absent or not a string),
stringify the remaining entries, recompute and compare. -/
def VerifyWebhookSignatureFromMap (c : Client) (payload : List (String × GoValue)) : Bool :=
  match lookupField "signature" payload with
  | some (GoValue.str sig) =>
    constantTimeCompare (strBytes (generateSignature c (mapParams payload)))
      (strBytes sig) == 1
  | _ => false

/-- A single-field mutation of a webhook payload: one of the eight signed
fields together with its replacement value. -/
inductive FieldMutation where
  | trade_id (v : String)
  | order_id (v : String)
  | amount (v : ℚ)
  | actual_amount (v : ℚ)
  | token (v : String)
  | chain_type (v : String)
  | block_transaction_id (v : String)
  | status (v : Int)

/-- Apply a single-field mutation to a payload. -/
def applyMutation (m : FieldMutation) (p : WebhookPayload) : WebhookPayload :=
  match m with
  | FieldMutation.trade_id v => { p with trade_id := v }
  | FieldMutation.order_id v => { p with order_id := v }
  | FieldMutation.amount v => { p with amount := v }
  | FieldMutation.actual_amount v => { p with actual_amount := v }
  | FieldMutation.token v => { p with token := v }
  | FieldMutation.chain_type v => { p with chain_type := v }
  | FieldMutation.block_transaction_id v => { p with block_transaction_id := v }
  | FieldMutation.status v => { p with status := v }

/-- The mutation replaces its field with a genuinely different value. -/
def mutationChanges (m : FieldMutation) (p : WebhookPayload) : Prop :=
  match m with
  | FieldMutation.trade_id v => v ≠ p.trade_id
  | FieldMutation.order_id v => v ≠ p.order_id
  | FieldMutation.amount v => v ≠ p.amount
  | FieldMutation.actual_amount v => v ≠ p.actual_amount
  | FieldMutation.token v => v ≠ p.token
  | FieldMutation.chain_type v => v ≠ p.chain_type
  | FieldMutation.block_transaction_id v => v ≠ p.block_transaction_id
  | FieldMutation.status v => v ≠ p.status

/-- A fixed client for the undetected-tamper example. -/
def tamperClient : Client :=
  ⟨"key", "secret"⟩

/-- The exact rational 1/1000, i.e. the amount 0.001, built from raw
numerator and denominator so every computation on it is by evaluation. -/
def tamperAmountOriginal : ℚ :=
  ⟨1, 1000, by decide, by decide⟩

/-- The exact rational 1/500, i.e. the amount 0.002 — a different amount
that `%.2f` formatting nevertheless renders identically to 0.001. -/
def tamperAmountMutated : ℚ :=
  ⟨1, 500, by decide, by decide⟩

/-- The exact rational zero, in raw form. -/
def ratZero : ℚ :=
  ⟨0, 1, by decide, by decide⟩

/-- A concrete paid-webhook payload whose `amount` is 0.001; mutating the
amount to 0.002 is invisible to the two-decimal canonical formatting. -/
def tamperPayload : WebhookPayload :=
  ⟨"TRADE_001", "ORDER_001", tamperAmountOriginal, ratZero, "USDT", "BSC",
   "0xabc", 2, ""⟩

instance : IsTotal String strLe := by
  constructor
  intro a b
  show charListLe a.data b.data = true ∨ charListLe b.data a.data = true
  generalize a.data = l₁
  generalize b.data = l₂
  induction l₁ generalizing l₂ with
  | nil => left; rfl
  | cons c cs ih =>
    cases l₂ with
    | nil => right; rfl
    | cons d ds =>
      rcases Nat.lt_trichotomy c.toNat d.toNat with h | h | h
      · left; simp [charListLe, h]
      · have h1 : ¬ c.toNat < d.toNat := by omega
        have h2 : ¬ d.toNat < c.toNat := by omega
        simp only [charListLe, if_neg h1, if_neg h2]
        exact ih ds
      · right; simp [charListLe, h]

instance : IsTrans String strLe := by
  constructor
  intro a b c hab hbc
  show charListLe a.data c.data = true
  have key : ∀ (l₁ l₂ l₃ : List Char), charListLe l₁ l₂ = true →
      charListLe l₂ l₃ = true → charListLe l₁ l₃ = true := by
    intro l₁
    induction l₁ with
    | nil => intro l₂ l₃ _ _; rfl
    | cons x xs ih =>
      intro l₂ l₃ h12 h23
      cases l₂ with
      | nil => exact absurd h12 (by simp [charListLe])
      | cons y ys =>
        cases l₃ with
        | nil => exact absurd h23 (by simp [charListLe])
        | cons z zs =>
          simp only [charListLe] at h12 h23 ⊢
          split_ifs at h12 h23 ⊢ <;>
            first
            | rfl
            | omega
            | exact absurd h12 (by decide)
            | exact absurd h23 (by decide)
            | exact ih ys zs h12 h23
  exact key _ _ _ hab hbc

instance : IsAntisymm String strLe := by
  constructor
  intro a b hab hba
  have key : ∀ (l₁ l₂ : List Char), charListLe l₁ l₂ = true →
      charListLe l₂ l₁ = true → l₁ = l₂ := by
    intro l₁
    induction l₁ with
    | nil =>
      intro l₂ h12 h21
      cases l₂ with
      | nil => rfl
      | cons d ds => exact absurd h21 (by simp [charListLe])
    | cons x xs ih =>
      intro l₂ h12 h21
      cases l₂ with
      | nil => exact absurd h12 (by simp [charListLe])
      | cons y ys =>
        simp only [charListLe] at h12 h21
        split_ifs at h12 h21 <;>
          first
          | omega
          | exact absurd h12 (by decide)
          | exact absurd h21 (by decide)
          | (have hn : x.toNat = y.toNat := by omega
             have hxy : x = y := Char.ext (UInt32.ext hn)
             subst hxy
             rw [ih ys h12 h21])
  have h := key a.data b.data hab hba
  cases a
  cases b
  exact congrArg String.mk h

instance : IsTotal (String × String) pairLe :=
  ⟨fun a b => @IsTotal.total String strLe _ a.1 b.1⟩

instance : IsTrans (String × String) pairLe :=
  ⟨fun a b c hab hbc => @IsTrans.trans String strLe _ a.1 b.1 c.1 hab hbc⟩

/-- A lookup misses exactly when the key is absent from the key list. -/
theorem lookupField_eq_none_iff {α : Type} (k : String) (p : List (String × α)) :
    lookupField k p = none ↔ k ∉ p.map Prod.fst := by
  induction p with
  | nil => simp [lookupField]
  | cons kv rest ih =>
    by_cases h : kv.1 = k
    · simp [lookupField, h]
    · simp [lookupField, h, ih, Ne.symm h]

/-- A successful lookup returns an entry of the list. -/
theorem lookupField_mem {α : Type} {k : String} {v : α} {p : List (String × α)}
    (h : lookupField k p = some v) : (k, v) ∈ p := by
  induction p with
  | nil => simp [lookupField] at h
  | cons kv rest ih =>
    by_cases hk : kv.1 = k
    · simp only [lookupField, if_pos hk] at h
      have he : (k, v) = kv := by
        rw [← hk, ← Option.some_inj.mp h]
      exact he ▸ List.mem_cons_self _ _
    · simp only [lookupField, if_neg hk] at h
      exact List.mem_cons_of_mem _ (ih h)

/-- With `Nodup` keys, membership determines the lookup result. -/
theorem lookupField_eq_some_of_mem {α : Type} {p : List (String × α)}
    (hnd : (p.map Prod.fst).Nodup) {k : String} {v : α} (h : (k, v) ∈ p) :
    lookupField k p = some v := by
  induction p with
  | nil => simp at h
  | cons kv rest ih =>
    rcases List.mem_cons.mp h with h | h
    · rw [← h]
      simp [lookupField]
    · have hk : kv.1 ≠ k := by
        intro he
        have : k ∈ rest.map Prod.fst :=
          List.mem_map.mpr ⟨(k, v), h, rfl⟩
        rw [List.map_cons, List.nodup_cons] at hnd
        exact hnd.1 (he ▸ this)
      simp only [lookupField, if_neg hk]
      exact ih (List.nodup_cons.mp (by simpa using hnd)).2 h

/-- Lookup is invariant under permutation of a map with `Nodup` keys: a Go
map has no entry order, so any listing of its entries looks up the same. -/
theorem lookupField_perm {α : Type} {p₁ p₂ : List (String × α)} (hp : p₁.Perm p₂)
    (hnd : (p₁.map Prod.fst).Nodup) (k : String) :
    lookupField k p₁ = lookupField k p₂ := by
  cases h : lookupField k p₁ with
  | none =>
    symm
    rw [lookupField_eq_none_iff] at h ⊢
    intro hmem
    exact h (((hp.map Prod.fst).mem_iff).mpr hmem)
  | some v =>
    exact (lookupField_eq_some_of_mem ((hp.map Prod.fst).nodup hnd)
      (hp.subset (lookupField_mem h))).symm

/-- The filter predicate, unfolded to propositions. -/
theorem keptPair_iff (kv : String × String) :
    keptPair kv = true ↔ kv.1 ≠ "signature" ∧ kv.2 ≠ "" := by
  simp [keptPair]

/-- Membership in the sorted key list is membership among the kept keys. -/
theorem mem_signedKeys {k : String} {p : List (String × String)} :
    k ∈ signedKeys p ↔ k ∈ (p.filter keptPair).map Prod.fst :=
  (List.perm_insertionSort strLe _).mem_iff

/-- Every signed key comes from a kept entry: it is not the reserved
`signature` key and its value in `p` is non-empty. -/
theorem signedKeys_spec {k : String} {p : List (String × String)}
    (h : k ∈ signedKeys p) :
    k ≠ "signature" ∧ ∃ v, (k, v) ∈ p ∧ v ≠ "" := by
  rcases List.mem_map.mp (mem_signedKeys.mp h) with ⟨kv, hkv, hfst⟩
  rcases List.mem_filter.mp hkv with ⟨hmem, hkept⟩
  rcases (keptPair_iff kv).mp hkept with ⟨hsig, hval⟩
  subst hfst
  exact ⟨hsig, kv.2, by simpa using hmem, hval⟩

/-- The signed key list is sorted in the byte-wise order. -/
theorem signedKeys_sorted (p : List (String × String)) :
    List.Sorted strLe (signedKeys p) :=
  List.sorted_insertionSort strLe _

/-- The signed key list only depends on the entry set, not its order. -/
theorem signedKeys_perm {p₁ p₂ : List (String × String)} (hp : p₁.Perm p₂) :
    signedKeys p₁ = signedKeys p₂ := by
  refine List.eq_of_perm_of_sorted ?_ (signedKeys_sorted p₁) (signedKeys_sorted p₂)
  exact (List.perm_insertionSort strLe _).trans
    (((hp.filter keptPair).map Prod.fst).trans (List.perm_insertionSort strLe _).symm)

/-- The canonical string only depends on the entry set: permuting a map
listing with `Nodup` keys leaves it unchanged. -/
theorem canonicalString_perm {p₁ p₂ : List (String × String)} (hp : p₁.Perm p₂)
    (hnd : (p₁.map Prod.fst).Nodup) :
    canonicalString p₁ = canonicalString p₂ := by
  unfold canonicalString
  rw [signedKeys_perm hp]
  congr 1
  exact List.map_congr_left (fun k _ => by rw [lookupField_perm hp hnd k])

/-- The signature is a function of the canonical string alone. -/
theorem generateSignature_congr {c : Client} {p₁ p₂ : List (String × String)}
    (h : canonicalString p₁ = canonicalString p₂) :
    generateSignature c p₁ = generateSignature c p₂ := by
  unfold generateSignature
  rw [h]

/-- A big-endian expansion has exactly the requested width. -/
theorem beBytes_length (n x : Nat) : (beBytes n x).length = n := by
  induction n generalizing x with
  | zero => rfl
  | succ n ih => simp [beBytes, ih]

/-- Every byte of a big-endian expansion is below 256. -/
theorem beBytes_lt {n x : Nat} : ∀ b ∈ beBytes n x, b < 256 := by
  induction n generalizing x with
  | zero => simp [beBytes]
  | succ n ih =>
    intro b hb
    rcases List.mem_cons.mp hb with h | h
    · rw [h]
      exact Nat.mod_lt _ (by norm_num)
    · exact ih b h

/-- A SHA-256 digest is 32 bytes long. -/
theorem digestBytes_length (s : Sha256State) : (digestBytes s).length = 32 := by
  simp [digestBytes, beBytes_length]

/-- Every byte of a SHA-256 digest is below 256. -/
theorem digestBytes_lt {s : Sha256State} : ∀ b ∈ digestBytes s, b < 256 := by
  intro b hb
  simp only [digestBytes, List.mem_append] at hb
  rcases hb with ((((((h | h) | h) | h) | h) | h) | h) | h <;> exact beBytes_lt b h

/-- `sha256` always produces 32 bytes. -/
theorem sha256_length (msg : List Nat) : (sha256 msg).length = 32 :=
  digestBytes_length _

/-- Every byte `sha256` produces is below 256. -/
theorem sha256_lt {msg : List Nat} : ∀ b ∈ sha256 msg, b < 256 :=
  digestBytes_lt

/-- `hmacSha256` always produces 32 bytes. -/
theorem hmacSha256_length (key msg : List Nat) : (hmacSha256 key msg).length = 32 :=
  sha256_length _

/-- Every byte `hmacSha256` produces is below 256. -/
theorem hmacSha256_lt {key msg : List Nat} : ∀ b ∈ hmacSha256 key msg, b < 256 :=
  sha256_lt

/-- Hex encoding yields two characters per byte. -/
theorem hexEncode_length (bs : List Nat) : (hexEncode bs).length = 2 * bs.length := by
  show (bs.foldr (fun b acc => hexChar (b / 16) :: hexChar (b % 16) :: acc) []).length
    = 2 * bs.length
  induction bs with
  | nil => rfl
  | cons b rest ih => simp [ih]; omega

/-- A hex digit of an in-range value is drawn from the lowercase alphabet. -/
theorem hexChar_mem {n : Nat} (h : n < 16) : hexChar n ∈ hexDigitChars := by
  interval_cases n <;> decide

/-- Every character of a hex encoding of genuine bytes is a lowercase hex
digit. -/
theorem hexEncode_chars {bs : List Nat} (h : ∀ b ∈ bs, b < 256) :
    ∀ ch ∈ (hexEncode bs).data, ch ∈ hexDigitChars := by
  show ∀ ch ∈ bs.foldr (fun b acc => hexChar (b / 16) :: hexChar (b % 16) :: acc) [],
    ch ∈ hexDigitChars
  induction bs with
  | nil => simp
  | cons b rest ih =>
    intro ch hch
    have hb : b < 256 := h b (List.mem_cons_self _ _)
    rcases List.mem_cons.mp hch with h1 | hch
    · rw [h1]; exact hexChar_mem (by omega)
    rcases List.mem_cons.mp hch with h2 | hch
    · rw [h2]; exact hexChar_mem (by omega)
    · exact ih (fun x hx => h x (List.mem_cons_of_mem _ hx)) ch hch

/-- The lowercase hex alphabet is pure ASCII. -/
theorem hexDigitChars_ascii : ∀ ch ∈ hexDigitChars, ch.toNat < 128 := by
  decide

/-- The signature string is always 64 characters long. -/
theorem generateSignature_length (c : Client) (p : List (String × String)) :
    (generateSignature c p).length = 64 := by
  unfold generateSignature
  rw [hexEncode_length, hmacSha256_length]

/-- Every character of a signature is a lowercase hex digit. -/
theorem generateSignature_chars (c : Client) (p : List (String × String)) :
    ∀ ch ∈ (generateSignature c p).data, ch ∈ hexDigitChars :=
  hexEncode_chars hmacSha256_lt

/-- The signature string is pure ASCII. -/
theorem generateSignature_ascii (c : Client) (p : List (String × String)) :
    ∀ ch ∈ (generateSignature c p).data, ch.toNat < 128 :=
  fun ch hch => hexDigitChars_ascii ch (generateSignature_chars c p ch hch)

/-- Two naturals OR to zero exactly when both are zero. -/
theorem lor_eq_zero_iff {a b : Nat} : a ||| b = 0 ↔ a = 0 ∧ b = 0 := by
  constructor
  · intro h
    constructor <;>
      (apply Nat.eq_of_testBit_eq
       intro i
       have hi := congrArg (fun x => Nat.testBit x i) h
       simp only [Nat.testBit_or, Nat.zero_testBit, Bool.or_eq_false_iff] at hi
       simp [hi.1, hi.2, Nat.zero_testBit])
  · rintro ⟨rfl, rfl⟩
    rfl

/-- The XOR-accumulating fold of `ConstantTimeCompare` vanishes exactly when
the accumulator is zero and every zipped pair agrees. -/
theorem ctcFold_eq_zero_iff (l : List (Nat × Nat)) (acc : Nat) :
    l.foldl (fun v ab => v ||| (ab.1 ^^^ ab.2)) acc = 0 ↔
      acc = 0 ∧ ∀ ab ∈ l, ab.1 = ab.2 := by
  induction l generalizing acc with
  | nil => simp
  | cons ab rest ih =>
    simp only [List.foldl_cons, ih, lor_eq_zero_iff, Nat.xor_eq_zero, List.mem_cons]
    constructor
    · rintro ⟨⟨h1, h2⟩, h3⟩
      exact ⟨h1, fun x hx => by rcases hx with rfl | hx; exact h2; exact h3 x hx⟩
    · rintro ⟨h1, h2⟩
      exact ⟨⟨h1, h2 ab (Or.inl rfl)⟩, fun x hx => h2 x (Or.inr hx)⟩

/-- Equal-length lists whose zip agrees pointwise are equal. -/
theorem eq_of_zip_agree : ∀ {x y : List Nat}, x.length = y.length →
    (∀ ab ∈ x.zip y, ab.1 = ab.2) → x = y := by
  intro x
  induction x with
  | nil =>
    intro y hlen _
    cases y with
    | nil => rfl
    | cons b bs => simp at hlen
  | cons a as ih =>
    intro y hlen hag
    cases y with
    | nil => simp at hlen
    | cons b bs =>
      have h1 : a = b := hag (a, b) (List.mem_cons_self _ _)
      have h2 : as = bs :=
        ih (by simpa using hlen) (fun ab hab => hag ab (List.mem_cons_of_mem _ hab))
      rw [h1, h2]

/-- Zipping a list with itself pairs each element with itself. -/
theorem zip_self_agree : ∀ (l : List Nat), ∀ ab ∈ l.zip l, ab.1 = ab.2 := by
  intro l
  induction l with
  | nil => simp
  | cons a as ih =>
    intro ab hab
    rcases List.mem_cons.mp (by simpa [List.zip_cons_cons] using hab) with h | h
    · rw [h]
    · exact ih ab h

/-- The functional content of `subtle.ConstantTimeCompare`: it returns `1`
exactly on equal length and equal contents. -/
theorem constantTimeCompare_eq_one_iff (x y : List Nat) :
    constantTimeCompare x y = 1 ↔ x = y := by
  unfold constantTimeCompare
  split_ifs with h1 h2
  · constructor
    · intro h; exact absurd h (by decide)
    · intro h; exact absurd (congrArg List.length h) h1
  · constructor
    · intro _
      rcases (ctcFold_eq_zero_iff _ _).mp h2 with ⟨_, hag⟩
      exact eq_of_zip_agree (by omega) hag
    · intro _; rfl
  · constructor
    · intro h; exact absurd h (by decide)
    · intro h
      subst h
      exact absurd ((ctcFold_eq_zero_iff _ _).mpr ⟨rfl, zip_self_agree x⟩) h2

/-- An ASCII character encodes as its single code-point byte. -/
theorem utf8Bytes_ascii {c : Char} (h : c.toNat < 128) : utf8Bytes c = [c.toNat] := by
  unfold utf8Bytes
  simp [h]

/-- No character encodes to the empty byte string. -/
theorem utf8Bytes_ne_nil (c : Char) : utf8Bytes c ≠ [] := by
  unfold utf8Bytes
  split_ifs <;> simp

/-- A non-ASCII character's encoding starts with a lead byte of at least
192, so it can never collide with an ASCII byte. -/
theorem utf8Bytes_head_high {c : Char} (h : ¬ c.toNat < 128) :
    ∃ b rest, utf8Bytes c = b :: rest ∧ 192 ≤ b := by
  unfold utf8Bytes
  split_ifs with h1 h2 <;> exact ⟨_, _, rfl, by omega⟩

/-- The byte string of a cons. -/
theorem charListBytes_cons (c : Char) (l : List Char) :
    charListBytes (c :: l) = utf8Bytes c ++ charListBytes l :=
  rfl

/-- UTF-8 decoding is unambiguous against an all-ASCII left operand: equal
byte strings force equal character lists. -/
theorem charListBytes_inj_of_ascii :
    ∀ (l₁ : List Char), (∀ c ∈ l₁, c.toNat < 128) →
      ∀ (l₂ : List Char), charListBytes l₁ = charListBytes l₂ → l₁ = l₂ := by
  intro l₁
  induction l₁ with
  | nil =>
    intro _ l₂ h
    cases l₂ with
    | nil => rfl
    | cons d ds =>
      rw [charListBytes_cons] at h
      exact absurd (List.append_eq_nil.mp h.symm).1 (utf8Bytes_ne_nil d)
  | cons c cs ih =>
    intro hascii l₂ h
    have hc : c.toNat < 128 := hascii c (List.mem_cons_self _ _)
    cases l₂ with
    | nil =>
      rw [charListBytes_cons] at h
      exact absurd (List.append_eq_nil.mp h).1 (utf8Bytes_ne_nil c)
    | cons d ds =>
      rw [charListBytes_cons, charListBytes_cons, utf8Bytes_ascii hc] at h
      by_cases hd : d.toNat < 128
      · rw [utf8Bytes_ascii hd] at h
        simp only [List.singleton_append] at h
        injection h with h1 h2
        have hcd : c = d := Char.ext (UInt32.ext h1)
        rw [hcd, ih (fun x hx => hascii x (List.mem_cons_of_mem _ hx)) ds h2]
      · rcases utf8Bytes_head_high hd with ⟨b, rest, heq, hb⟩
        rw [heq] at h
        simp only [List.singleton_append, List.cons_append] at h
        injection h with h1 _
        omega

/-- Strings with equal character data are equal. -/
theorem string_data_inj {s t : String} (h : s.data = t.data) : s = t := by
  cases s
  cases t
  exact congrArg String.mk h

/-- UTF-8 encoding is injective on strings when one side is ASCII. -/
theorem strBytes_inj_of_ascii {s t : String} (hs : ∀ c ∈ s.data, c.toNat < 128)
    (h : strBytes s = strBytes t) : s = t :=
  string_data_inj (charListBytes_inj_of_ascii s.data hs t.data h)

/-- The comparison both verifiers run returns `true` exactly when the
received string equals the expected (ASCII) one. -/
theorem compare_signature_iff {expected sig : String}
    (hx : ∀ c ∈ expected.data, c.toNat < 128) :
    (constantTimeCompare (strBytes expected) (strBytes sig) == 1) = true ↔
      sig = expected := by
  rw [beq_iff_eq, constantTimeCompare_eq_one_iff]
  constructor
  · intro h
    exact (strBytes_inj_of_ascii hx h).symm
  · intro h
    rw [h]

/-- `VerifyWebhookSignature` succeeds exactly when the stored signature
equals the recomputed one. -/
theorem verify_eq_true_iff (c : Client) (p : WebhookPayload) :
    VerifyWebhookSignature c p = true ↔
      p.signature = generateSignature c (webhookParams p) := by
  unfold VerifyWebhookSignature
  exact compare_signature_iff (generateSignature_ascii c (webhookParams p))

/-- The parameter map built from a payload ignores the signature field. -/
theorem webhookParams_signature_update (p : WebhookPayload) (s : String) :
    webhookParams { p with signature := s } = webhookParams p :=
  rfl

/-- Unfolding equation for `lookupField` on a cons cell. -/
theorem lookupField_cons {α : Type} (k : String) (kv : String × α) (rest : List (String × α)) :
    lookupField k (kv :: rest) = if kv.1 = k then some kv.2 else lookupField k rest :=
  rfl

/-- When the untyped payload carries a string `signature`, the map verifier
succeeds exactly on the recomputed signature over the stringified rest. -/
theorem verifyFromMap_eq_true_iff {c : Client} {payload : List (String × GoValue)}
    {sig : String} (h : lookupField "signature" payload = some (GoValue.str sig)) :
    VerifyWebhookSignatureFromMap c payload = true ↔
      sig = generateSignature c (mapParams payload) := by
  unfold VerifyWebhookSignatureFromMap
  rw [h]
  exact compare_signature_iff (generateSignature_ascii c _)

/-- C1: the canonical string drops `signature`-keyed and empty-valued
entries, sorts the remaining keys ascending byte-wise, and joins verbatim
`key=value` pairs with `&` — the source's sort-keys-then-look-up
construction coincides with the spec's sort-the-pairs description on any
map listing with `Nodup` keys. -/
theorem claim1_canonical_refinement (p : List (String × String))
    (hnd : (p.map Prod.fst).Nodup) :
    canonicalString p = specCanonicalize p := by
  have hq : ∀ kv ∈ List.insertionSort pairLe (p.filter keptPair),
      lookupField kv.1 p = some kv.2 := by
    intro kv hkv
    have hf : kv ∈ p.filter keptPair :=
      (List.perm_insertionSort pairLe _).mem_iff.mp hkv
    have hmem : kv ∈ p := (List.mem_filter.mp hf).1
    exact lookupField_eq_some_of_mem hnd (by rw [Prod.mk.eta]; exact hmem)
  have hkeys : signedKeys p = (List.insertionSort pairLe (p.filter keptPair)).map Prod.fst := by
    refine List.eq_of_perm_of_sorted ?_ (signedKeys_sorted p) ?_
    · exact (List.perm_insertionSort strLe _).trans
        ((List.perm_insertionSort pairLe _).map Prod.fst).symm
    · exact List.Pairwise.map Prod.fst (fun a b hab => hab)
        (List.sorted_insertionSort pairLe _)
  unfold canonicalString specCanonicalize
  rw [hkeys, List.map_map]
  congr 1
  refine List.map_congr_left (fun kv hkv => ?_)
  show kv.1 ++ "=" ++ (lookupField kv.1 p).getD "" = kv.1 ++ "=" ++ kv.2
  rw [hq kv hkv]
  rfl

/-- C1 witness: the refinement at a concrete five-entry map. -/
theorem claim1_witness :
    ((([("notify_url", "https://example.com/webhook"), ("order_id", "ORDER_001"),
        ("signature", "deadbeef"), ("chain_type", ""), ("amount", "100.00")] :
        List (String × String)).map Prod.fst).Nodup) ∧
    canonicalString
        [("notify_url", "https://example.com/webhook"), ("order_id", "ORDER_001"),
         ("signature", "deadbeef"), ("chain_type", ""), ("amount", "100.00")] =
      specCanonicalize
        [("notify_url", "https://example.com/webhook"), ("order_id", "ORDER_001"),
         ("signature", "deadbeef"), ("chain_type", ""), ("amount", "100.00")] :=
  ⟨by decide, claim1_canonical_refinement _ (by decide)⟩

/-- C2: signing is deterministic and order-independent — any two listings
of the same parameter map (same entries, any order, `Nodup` keys) produce
the same canonical string and the same signature, for every client
secret. -/
theorem claim2_order_independence (c : Client) (p₁ p₂ : List (String × String))
    (hp : p₁.Perm p₂) (hnd : (p₁.map Prod.fst).Nodup) :
    canonicalString p₁ = canonicalString p₂ ∧
      generateSignature c p₁ = generateSignature c p₂ :=
  ⟨canonicalString_perm hp hnd,
    generateSignature_congr (canonicalString_perm hp hnd)⟩

/-- C2 witness: two construction orders of a two-entry map sign alike. -/
theorem claim2_witness :
    (([("a", "1"), ("b", "2")] : List (String × String)).Perm [("b", "2"), ("a", "1")]) ∧
    ((([("a", "1"), ("b", "2")] : List (String × String)).map Prod.fst).Nodup) ∧
    (canonicalString [("a", "1"), ("b", "2")] = canonicalString [("b", "2"), ("a", "1")] ∧
      generateSignature ⟨"api", "secret"⟩ [("a", "1"), ("b", "2")] =
        generateSignature ⟨"api", "secret"⟩ [("b", "2"), ("a", "1")]) :=
  ⟨List.Perm.swap _ _ _, by decide,
    claim2_order_independence ⟨"api", "secret"⟩ _ _ (List.Perm.swap _ _ _) (by decide)⟩

/-- C3: `VerifyWebhookSignature` returns `true` exactly when the payload's
signature field equals (in length and content) the signature recomputed
over the non-signature fields with the client secret; in particular a
payload re-signed with the same secret always verifies. -/
theorem claim3_verify_roundtrip (c : Client) (p : WebhookPayload) :
    (VerifyWebhookSignature c p = true ↔
      p.signature = generateSignature c (webhookParams p)) ∧
    VerifyWebhookSignature c
      { p with signature := generateSignature c (webhookParams p) } = true := by
  refine ⟨verify_eq_true_iff c p, ?_⟩
  rw [verify_eq_true_iff]
  rfl

/-- C4: the reserved `signature` key is excluded with any value, and an
empty-valued entry under a fresh key is excluded, so neither changes the
signature. -/
theorem claim4_exclusion (c : Client) (p : List (String × String)) (v k : String)
    (hk : k ∉ p.map Prod.fst) :
    generateSignature c (("signature", v) :: p) = generateSignature c p ∧
      generateSignature c ((k, "") :: p) = generateSignature c p := by
  constructor
  · apply generateSignature_congr
    have hfilter : (("signature", v) :: p).filter keptPair = p.filter keptPair :=
      List.filter_cons_of_neg (by simp [keptPair])
    have hkeys : signedKeys (("signature", v) :: p) = signedKeys p := by
      unfold signedKeys
      rw [hfilter]
    unfold canonicalString
    rw [hkeys]
    congr 1
    refine List.map_congr_left (fun k' hk' => ?_)
    have hne : ¬ (("signature", v).1 = k') := fun h => (signedKeys_spec hk').1 h.symm
    rw [lookupField_cons, if_neg hne]
  · apply generateSignature_congr
    have hfilter : ((k, "") :: p).filter keptPair = p.filter keptPair :=
      List.filter_cons_of_neg (by simp [keptPair])
    have hkeys : signedKeys ((k, "") :: p) = signedKeys p := by
      unfold signedKeys
      rw [hfilter]
    unfold canonicalString
    rw [hkeys]
    congr 1
    refine List.map_congr_left (fun k' hk' => ?_)
    rcases signedKeys_spec hk' with ⟨_, v', hv', _⟩
    have hne : ¬ ((k, "").1 = k') := by
      intro he
      exact hk (List.mem_map.mpr ⟨(k', v'), hv', he.symm⟩)
    rw [lookupField_cons, if_neg hne]

/-- C4 witness: the exclusions at a concrete two-entry map and fresh key. -/
theorem claim4_witness :
    ("c" ∉ ([("a", "1"), ("b", "2")] : List (String × String)).map Prod.fst) ∧
    (generateSignature ⟨"api", "secret"⟩ [("signature", "zz"), ("a", "1"), ("b", "2")] =
        generateSignature ⟨"api", "secret"⟩ [("a", "1"), ("b", "2")] ∧
      generateSignature ⟨"api", "secret"⟩ [("c", ""), ("a", "1"), ("b", "2")] =
        generateSignature ⟨"api", "secret"⟩ [("a", "1"), ("b", "2")]) :=
  ⟨by decide, claim4_exclusion ⟨"api", "secret"⟩ _ "zz" "c" (by decide)⟩

/-- C7: for a non-empty parameter map and non-empty secret (indeed, for any
input at all), the signature is exactly 64 characters, each a lowercase
hex digit — the hex coding of the 32-byte HMAC-SHA256 digest. -/
theorem claim7_length_and_hex (c : Client) (p : List (String × String))
    (_hs : c.apiSecret ≠ "") (_hp : p ≠ []) :
    (generateSignature c p).length = 64 ∧
      ∀ ch ∈ (generateSignature c p).data, ch ∈ hexDigitChars :=
  ⟨generateSignature_length c p, generateSignature_chars c p⟩

/-- C7 witness: shape of the signature at a concrete input. -/
theorem claim7_witness :
    (Client.mk "api" "secret").apiSecret ≠ "" ∧
    ([("a", "1")] : List (String × String)) ≠ [] ∧
    ((generateSignature ⟨"api", "secret"⟩ [("a", "1")]).length = 64 ∧
      ∀ ch ∈ (generateSignature ⟨"api", "secret"⟩ [("a", "1")]).data,
        ch ∈ hexDigitChars) :=
  ⟨by decide, by decide, claim7_length_and_hex ⟨"api", "secret"⟩ _ (by decide) (by decide)⟩

/-- C9: values are joined verbatim, so the canonical map is not injective:
the one-entry map `a ↦ 1&b=2` and the two-entry map `a ↦ 1, b ↦ 2` are
distinct maps (their key sets differ) with the same canonical string, and
hence the same signature under every secret. -/
theorem claim9_not_injective :
    (([("a", "1&b=2")] : List (String × String)) ≠ [("a", "1"), ("b", "2")]) ∧
    (([("a", "1&b=2")] : List (String × String)).map Prod.fst ≠
      ([("a", "1"), ("b", "2")] : List (String × String)).map Prod.fst) ∧
    canonicalString [("a", "1&b=2")] = canonicalString [("a", "1"), ("b", "2")] ∧
    ∀ c : Client, generateSignature c [("a", "1&b=2")] =
      generateSignature c [("a", "1"), ("b", "2")] :=
  ⟨by decide, by decide, by decide, fun c => generateSignature_congr (by decide)⟩

/-- C10: degenerate inputs do not fail: the empty map (and any map whose
values are all empty) canonicalizes to the empty string and signs to the
64-hex-character HMAC of the empty message, and the untyped verifier on a
record holding only a string `signature` compares it against exactly that
empty-message signature. -/
theorem claim10_degenerate (c : Client) (sig : String) (p : List (String × String))
    (hp : ∀ kv ∈ p, kv.2 = "") :
    canonicalString ([] : List (String × String)) = "" ∧
    generateSignature c [] =
      hexEncode (hmacSha256 (strBytes c.apiSecret) (strBytes "")) ∧
    (generateSignature c []).length = 64 ∧
    (∀ ch ∈ (generateSignature c []).data, ch ∈ hexDigitChars) ∧
    generateSignature c p = generateSignature c [] ∧
    (VerifyWebhookSignatureFromMap c [("signature", GoValue.str sig)] = true ↔
      sig = generateSignature c []) := by
  refine ⟨rfl, rfl, generateSignature_length c [], generateSignature_chars c [], ?_, ?_⟩
  · apply generateSignature_congr
    have hf : p.filter keptPair = [] := by
      rw [List.filter_eq_nil_iff]
      intro kv hkv
      simp [keptPair, hp kv hkv]
    unfold canonicalString
    have hkeys : signedKeys p = signedKeys [] := by
      unfold signedKeys
      rw [hf]
      rfl
    rw [hkeys]
    rfl
  · exact verifyFromMap_eq_true_iff rfl

/-- C10 witness: the degenerate behavior at a concrete all-empty map. -/
theorem claim10_witness :
    (∀ kv ∈ ([("a", ""), ("b", "")] : List (String × String)), kv.2 = "") ∧
    (canonicalString ([] : List (String × String)) = "" ∧
      generateSignature ⟨"k", "s"⟩ [] =
        hexEncode (hmacSha256 (strBytes (Client.mk "k" "s").apiSecret) (strBytes "")) ∧
      (generateSignature ⟨"k", "s"⟩ []).length = 64 ∧
      (∀ ch ∈ (generateSignature ⟨"k", "s"⟩ []).data, ch ∈ hexDigitChars) ∧
      generateSignature ⟨"k", "s"⟩ [("a", ""), ("b", "")] = generateSignature ⟨"k", "s"⟩ [] ∧
      (VerifyWebhookSignatureFromMap ⟨"k", "s"⟩ [("signature", GoValue.str "x")] = true ↔
        "x" = generateSignature ⟨"k", "s"⟩ [])) :=
  ⟨by decide, claim10_degenerate ⟨"k", "s"⟩ "x" _ (by decide)⟩

/-- C8: the untyped verifier fails closed — when the record has no
`signature` entry, or its `signature` value is not a string, it returns
`false`; when a string signature is present it excludes that entry,
stringifies the rest generically, and decides by the same constant-time
comparison against the recomputed signature. -/
theorem claim8_untyped_fail_closed (c : Client) (payload : List (String × GoValue)) :
    ((∀ gv, ("signature", gv) ∈ payload → ∀ s, gv ≠ GoValue.str s) →
      VerifyWebhookSignatureFromMap c payload = false) ∧
    ∀ sig, lookupField "signature" payload = some (GoValue.str sig) →
      (VerifyWebhookSignatureFromMap c payload = true ↔
        sig = generateSignature c (mapParams payload)) := by
  constructor
  · intro h
    unfold VerifyWebhookSignatureFromMap
    cases hl : lookupField "signature" payload with
    | none => rfl
    | some gv =>
      have hmem := lookupField_mem hl
      cases gv with
      | str s => exact absurd rfl (h _ hmem s)
      | int n => rfl
      | bool b => rfl
      | null => rfl
  · intro sig hl
    exact verifyFromMap_eq_true_iff hl

/-- C8 witness: a record with no `signature` key verifies `false`, and a
record with a string `signature` delegates to the signature comparison. -/
theorem claim8_witness :
    (∀ gv, ("signature", gv) ∈ ([("amount", GoValue.str "1")] : List (String × GoValue)) →
      ∀ s, gv ≠ GoValue.str s) ∧
    VerifyWebhookSignatureFromMap ⟨"k", "s"⟩ [("amount", GoValue.str "1")] = false ∧
    lookupField "signature"
        ([("signature", GoValue.str "abc"), ("amount", GoValue.int 2)] :
          List (String × GoValue)) = some (GoValue.str "abc") ∧
    (VerifyWebhookSignatureFromMap ⟨"k", "s"⟩
        [("signature", GoValue.str "abc"), ("amount", GoValue.int 2)] = true ↔
      "abc" = generateSignature ⟨"k", "s"⟩
        (mapParams [("signature", GoValue.str "abc"), ("amount", GoValue.int 2)])) := by
  have hnosig : ∀ gv, ("signature", gv) ∈
      ([("amount", GoValue.str "1")] : List (String × GoValue)) →
      ∀ s, gv ≠ GoValue.str s := by
    intro gv hmem s
    rw [List.mem_singleton] at hmem
    have hfst : ("signature" : String) = "amount" := congrArg Prod.fst hmem
    exact absurd hfst (by decide)
  exact ⟨hnosig, (claim8_untyped_fail_closed ⟨"k", "s"⟩ _).1 hnosig, rfl,
    (claim8_untyped_fail_closed ⟨"k", "s"⟩ _).2 "abc" rfl⟩

/-- C5 counterexample: the claim fails at a concrete input.  The payload
`tamperPayload` carries `amount = 0.001`; mutating the amount to the
different value `0.002` changes nothing in the canonical string, because
`formatAmount` renders both as `"0.00"` (`%.2f` in the source), so the
original signature still verifies as `true`. -/
theorem claim5_counterexample :
    mutationChanges (FieldMutation.amount tamperAmountMutated) tamperPayload ∧
    formatAmount tamperAmountOriginal = "0.00" ∧
    formatAmount tamperAmountMutated = "0.00" ∧
    VerifyWebhookSignature tamperClient
      { applyMutation (FieldMutation.amount tamperAmountMutated) tamperPayload with
        signature := generateSignature tamperClient (webhookParams tamperPayload) } =
      true := by
  refine ⟨?_, by decide, by decide, ?_⟩
  · show tamperAmountMutated ≠ tamperPayload.amount
    decide
  · rw [verify_eq_true_iff]
    have hparams : webhookParams
        (applyMutation (FieldMutation.amount tamperAmountMutated) tamperPayload) =
        webhookParams tamperPayload := by decide
    show generateSignature tamperClient (webhookParams tamperPayload) =
      generateSignature tamperClient (webhookParams
        (applyMutation (FieldMutation.amount tamperAmountMutated) tamperPayload))
    rw [hparams]

/-- C5 amended: mutating a single field of a signed payload (keeping the
original signature) makes verification fail exactly when the recomputed
signature of the mutated payload differs from the original one.  A
mutation that leaves every formatted parameter unchanged — such as an
amount change below the two-decimal formatting precision — is therefore
not detected. -/
theorem claim5_tamper_detection (c : Client) (p : WebhookPayload) (m : FieldMutation) :
    VerifyWebhookSignature c
        { applyMutation m p with
          signature := generateSignature c (webhookParams p) } = false ↔
      generateSignature c (webhookParams (applyMutation m p)) ≠
        generateSignature c (webhookParams p) := by
  rw [← Bool.not_eq_true, verify_eq_true_iff]
  show ¬ (generateSignature c (webhookParams p) =
      generateSignature c (webhookParams (applyMutation m p))) ↔ _
  exact ne_comm

end CryptomePay
